import Mathlib

/-!
Shallow embedding of the puzzle widget in `src/components/PuzzleCanvas.tsx`.

Coordinates are rational numbers (the source uses JS numbers; every
quantity the claims reason about is produced by `+ - * /` on them, which
is exact here).  The implicit React component state is made explicit as
the structure `PState`; each event handler becomes a function
`PState → ... → PState`.  `Math.random()` is modelled by a caller-supplied
stream `rand : ℕ → ℕ → ℚ × ℚ` giving, per grid cell `(row, col)`, the pair
of samples used for that tile's `x` and `y`.
-/

set_option maxRecDepth 8192

namespace Puzzle

/-- `ROWS` constant of PuzzleCanvas.tsx (line 5). -/
def ROWS : ℕ := 25

/-- `COLS` constant of PuzzleCanvas.tsx (line 6). -/
def COLS : ℕ := 40

/-- `SNAP_THRESHOLD` constant of PuzzleCanvas.tsx (line 7). -/
def SNAP_THRESHOLD : ℚ := 20

/-- The `Piece` record type (lines 9-16): source-rectangle origin `sx, sy`,
current position `x, y`, and cut dimensions `width, height`. -/
structure Piece where
  sx : ℚ
  sy : ℚ
  x : ℚ
  y : ℚ
  width : ℚ
  height : ℚ
  deriving DecidableEq, Repr

/-- The component's mutable state: `pieces`, `draggedIndex`, `offsetRef`
(drag offset), `canvasSize`, `scaleRef` and the loaded `image` (its pixel
dimensions, `none` before `onload` fires). -/
structure PState where
  pieces : List Piece
  draggedIndex : Option ℕ
  offset : ℚ × ℚ
  canvasSize : ℚ × ℚ
  scale : ℚ
  image : Option (ℚ × ℚ)
  deriving DecidableEq, Repr

/-- `initializePieces` (lines 45-63): nested row-major loops building one
piece per grid cell; `x`/`y` are `Math.random() * (img.width - pieceWidth)`
and `Math.random() * (img.height - pieceHeight)`, with the random samples
supplied by `rand`. -/
def initializePieces (img : ℚ × ℚ) (rand : ℕ → ℕ → ℚ × ℚ) : List Piece :=
  (List.range ROWS).flatMap fun (row : ℕ) =>
    (List.range COLS).map fun (col : ℕ) =>
      { sx := (col : ℚ) * (img.1 / (COLS : ℚ))
        sy := (row : ℚ) * (img.2 / (ROWS : ℚ))
        x := (rand row col).1 * (img.1 - img.1 / (COLS : ℚ))
        y := (rand row col).2 * (img.2 - img.2 / (ROWS : ℚ))
        width := img.1 / (COLS : ℚ)
        height := img.2 / (ROWS : ℚ) }

/-- The hit condition of `getPieceAt` (line 98): the point lies in the
scaled bounding box, all four bounds inclusive. -/
def hitTest (scale x y : ℚ) (p : Piece) : Prop :=
  p.x * scale ≤ x ∧ x ≤ p.x * scale + p.width * scale ∧
  p.y * scale ≤ y ∧ y ≤ p.y * scale + p.height * scale

instance (scale x y : ℚ) (p : Piece) : Decidable (hitTest scale x y p) := by
  unfold hitTest; infer_instance

/-- Downward scan of `getPieceAt` (lines 91-101): `for (i = length-1; i >= 0; i--)`,
returning the first index whose piece passes `hitTest`.  The fuel argument is
`i + 1`, so `aux (n+1)` inspects index `n`. -/
def getPieceAtAux (pieces : List Piece) (scale x y : ℚ) : ℕ → Option ℕ
  | 0 => none
  | n + 1 =>
    match pieces[n]? with
    | some p => if hitTest scale x y p then some n else getPieceAtAux pieces scale x y n
    | none => getPieceAtAux pieces scale x y n

/-- `getPieceAt` (lines 90-103). -/
def getPieceAt (pieces : List Piece) (scale x y : ℚ) : Option ℕ :=
  getPieceAtAux pieces scale x y pieces.length

/-- `handleMouseDown` (lines 105-119): hit-test the (canvas-relative) point;
on a hit, record the dragged index and the logical-space drag offset
`(x/scale - piece.x, y/scale - piece.y)`.  The inner `none` branch is
unreachable (`getPieceAt` only returns indices of existing pieces); the
embedding leaves the state unchanged there. -/
def handleMouseDown (s : PState) (x y : ℚ) : PState :=
  match getPieceAt s.pieces s.scale x y with
  | none => s
  | some i =>
    match s.pieces[i]? with
    | none => s
    | some p =>
      { s with draggedIndex := some i
               offset := (x / s.scale - p.x, y / s.scale - p.y) }

/-- `handleMouseMove` (lines 121-134): a no-op unless a piece is being
dragged; otherwise copy the piece list and overwrite the dragged piece's
position with `point/scale - offset`.  The inner `none` branch is
unreachable for the same reason as in `handleMouseDown`. -/
def handleMouseMove (s : PState) (x y : ℚ) : PState :=
  match s.draggedIndex with
  | none => s
  | some i =>
    match s.pieces[i]? with
    | none => s
    | some p =>
      let moved : Piece :=
        { p with x := x / s.scale - s.offset.1, y := y / s.scale - s.offset.2 }
      { s with pieces := s.pieces.set i moved }

/-- `handleMouseUp` (lines 136-156): with a dragged piece, compute
`correctX = sx / scale`, `correctY = sy / scale`, and snap the piece there
when the Euclidean distance from its current position is below
`SNAP_THRESHOLD`; always clear `draggedIndex`.  The source compares
`Math.sqrt(d) < 20`; since `d ≥ 0` and squaring is monotone on
nonnegatives this is `d < 20^2`, which is how the embedding states it
(no square root is needed on ℚ). -/
def handleMouseUp (s : PState) : PState :=
  match s.draggedIndex with
  | none => s
  | some i =>
    match s.pieces[i]? with
    | none => { s with draggedIndex := none }
    | some p =>
      let correctX := p.sx / s.scale
      let correctY := p.sy / s.scale
      let snapped : Piece := { p with x := correctX, y := correctY }
      if (p.x - correctX) ^ 2 + (p.y - correctY) ^ 2 < SNAP_THRESHOLD ^ 2 then
        { s with pieces := s.pieces.set i snapped, draggedIndex := none }
      else
        { s with draggedIndex := none }

/-- `fixPuzzle` (lines 158-177): a no-op without an image; otherwise rebuild
the whole list in row-major order with every piece at its solved position
`(col * pieceWidth, row * pieceHeight)`. -/
def fixPuzzle (s : PState) : PState :=
  match s.image with
  | none => s
  | some img =>
    { s with pieces :=
        (List.range ROWS).flatMap fun (row : ℕ) =>
          (List.range COLS).map fun (col : ℕ) =>
            { sx := (col : ℚ) * (img.1 / (COLS : ℚ))
              sy := (row : ℚ) * (img.2 / (ROWS : ℚ))
              x := (col : ℚ) * (img.1 / (COLS : ℚ))
              y := (row : ℚ) * (img.2 / (ROWS : ℚ))
              width := img.1 / (COLS : ℚ)
              height := img.2 / (ROWS : ℚ) } }

/-- `messUpPuzzle` (lines 179-181): re-run `initializePieces` when an image
is loaded. -/
def messUpPuzzle (s : PState) (rand : ℕ → ℕ → ℚ × ℚ) : PState :=
  match s.image with
  | none => s
  | some img => { s with pieces := initializePieces img rand }

/-- `handleWheel` (lines 183-196): step the scale by `0.1` (wheel up,
`deltaY < 0`) or `-0.1`, clamp to `[0.5, 2]`, and, when an image is loaded,
recompute the canvas size as `image dimensions * newScale`. -/
def handleWheel (s : PState) (deltaY : ℚ) : PState :=
  let zoomAmount : ℚ := if deltaY < 0 then 1 / 10 else -(1 / 10)
  let newScale := max (1 / 2) (min 2 (s.scale + zoomAmount))
  match s.image with
  | none => { s with scale := newScale }
  | some img =>
    { s with scale := newScale
             canvasSize := (img.1 * newScale, img.2 * newScale) }

/-! ### Helper lemmas on the row-major grid build -/

/-- A nested row-major build is the same as a single map over the flat index,
with `row = i / C` and `col = i % C`. -/
lemma range_flatMap_map {α : Type} (C : ℕ) (f : ℕ → ℕ → α) :
    ∀ R : ℕ, (List.range R).flatMap (fun r => (List.range C).map (f r)) =
      (List.range (R * C)).map fun i => f (i / C) (i % C) := by
  intro R
  induction R with
  | zero => simp
  | succ R ih =>
    rw [List.range_succ, List.flatMap_append, ih]
    have h1 : (R + 1) * C = R * C + C := by ring
    rw [h1, List.range_add, List.map_append]
    congr 1
    simp only [List.flatMap_cons, List.flatMap_nil, List.append_nil, List.map_map]
    apply List.map_congr_left
    intro c hc
    rw [List.mem_range] at hc
    have hC : 0 < C := Nat.pos_of_ne_zero (by omega)
    have hdiv : (R * C + c) / C = R := by
      rw [Nat.mul_comm R C, Nat.mul_add_div hC, Nat.div_eq_of_lt hc, Nat.add_zero]
    have hmod : (R * C + c) % C = c := by
      rw [Nat.mul_comm R C, Nat.mul_add_mod, Nat.mod_eq_of_lt hc]
    simp [Function.comp, hdiv, hmod]

/-- `get?` of a mapped range. -/
lemma get?_range_map {α : Type} (g : ℕ → α) {i N : ℕ} (h : i < N) :
    ((List.range N).map g)[i]? = some (g i) := by
  rw [List.getElem?_map, List.getElem?_range h]; rfl

/-- Length of a mapped range. -/
lemma length_range_map {α : Type} (g : ℕ → α) (N : ℕ) :
    ((List.range N).map g).length = N := by simp

/-- The piece built by `initializePieces` at flat index `i`. -/
def initPiece (img : ℚ × ℚ) (rand : ℕ → ℕ → ℚ × ℚ) (i : ℕ) : Piece :=
  { sx := ((i % COLS : ℕ) : ℚ) * (img.1 / (COLS : ℚ))
    sy := ((i / COLS : ℕ) : ℚ) * (img.2 / (ROWS : ℚ))
    x := (rand (i / COLS) (i % COLS)).1 * (img.1 - img.1 / (COLS : ℚ))
    y := (rand (i / COLS) (i % COLS)).2 * (img.2 - img.2 / (ROWS : ℚ))
    width := img.1 / (COLS : ℚ)
    height := img.2 / (ROWS : ℚ) }

lemma initializePieces_eq (img : ℚ × ℚ) (rand : ℕ → ℕ → ℚ × ℚ) :
    initializePieces img rand = (List.range (ROWS * COLS)).map (initPiece img rand) :=
  range_flatMap_map COLS _ ROWS

lemma initializePieces_length (img : ℚ × ℚ) (rand : ℕ → ℕ → ℚ × ℚ) :
    (initializePieces img rand).length = ROWS * COLS := by
  rw [initializePieces_eq]; exact length_range_map _ _

lemma initializePieces_get? (img : ℚ × ℚ) (rand : ℕ → ℕ → ℚ × ℚ) {i : ℕ}
    (h : i < ROWS * COLS) :
    (initializePieces img rand)[i]? = some (initPiece img rand i) := by
  rw [initializePieces_eq]; exact get?_range_map _ h

/-- The piece built by `fixPuzzle` at flat index `i`. -/
def solvedPiece (img : ℚ × ℚ) (i : ℕ) : Piece :=
  { sx := ((i % COLS : ℕ) : ℚ) * (img.1 / (COLS : ℚ))
    sy := ((i / COLS : ℕ) : ℚ) * (img.2 / (ROWS : ℚ))
    x := ((i % COLS : ℕ) : ℚ) * (img.1 / (COLS : ℚ))
    y := ((i / COLS : ℕ) : ℚ) * (img.2 / (ROWS : ℚ))
    width := img.1 / (COLS : ℚ)
    height := img.2 / (ROWS : ℚ) }

lemma solvedPieces_build (img : ℚ × ℚ) :
    ((List.range ROWS).flatMap fun (row : ℕ) =>
      (List.range COLS).map fun (col : ℕ) =>
        ({ sx := (col : ℚ) * (img.1 / (COLS : ℚ))
           sy := (row : ℚ) * (img.2 / (ROWS : ℚ))
           x := (col : ℚ) * (img.1 / (COLS : ℚ))
           y := (row : ℚ) * (img.2 / (ROWS : ℚ))
           width := img.1 / (COLS : ℚ)
           height := img.2 / (ROWS : ℚ) } : Piece)) =
      (List.range (ROWS * COLS)).map (solvedPiece img) :=
  range_flatMap_map COLS _ ROWS

lemma fixPuzzle_eq (s : PState) (img : ℚ × ℚ) (h : s.image = some img) :
    fixPuzzle s = { s with pieces := (List.range (ROWS * COLS)).map (solvedPiece img) } := by
  simp only [fixPuzzle, h, solvedPieces_build]

lemma fixPuzzle_get? (s : PState) (img : ℚ × ℚ) (h : s.image = some img) {i : ℕ}
    (hi : i < ROWS * COLS) :
    (fixPuzzle s).pieces[i]? = some (solvedPiece img i) := by
  rw [fixPuzzle_eq s img h]; exact get?_range_map _ hi

lemma fixPuzzle_image (s : PState) : (fixPuzzle s).image = s.image := by
  cases h : s.image <;> simp [fixPuzzle, h]

/-! ### Characterization of the hit-test scan -/

lemma getPieceAtAux_none_iff (ps : List Piece) (sc x y : ℚ) :
    ∀ n : ℕ, getPieceAtAux ps sc x y n = none ↔
      ∀ j, j < n → ∀ q, ps[j]? = some q → ¬ hitTest sc x y q := by
  intro n
  induction n with
  | zero => simp [getPieceAtAux]
  | succ n ih =>
    unfold getPieceAtAux
    cases hq : ps[n]? with
    | some p =>
      by_cases hh : hitTest sc x y p
      · simp only [hh, if_pos, reduceCtorEq, false_iff]
        intro hall
        exact hall n (Nat.lt_succ_self n) p hq hh
      · simp only [hh, if_neg, not_false_iff, ih]
        constructor
        · intro hall j hj q hgq
          rcases Nat.lt_succ_iff_lt_or_eq.mp hj with hj1 | hj1
          · exact hall j hj1 q hgq
          · subst hj1
            rw [hq] at hgq
            cases hgq
            exact hh
        · intro hall j hj q hgq
          exact hall j (Nat.lt_succ_of_lt hj) q hgq
    | none =>
      rw [ih]
      constructor
      · intro hall j hj q hgq
        rcases Nat.lt_succ_iff_lt_or_eq.mp hj with hj1 | hj1
        · exact hall j hj1 q hgq
        · subst hj1
          rw [hq] at hgq
          cases hgq
      · intro hall j hj q hgq
        exact hall j (Nat.lt_succ_of_lt hj) q hgq

lemma getPieceAtAux_some_iff (ps : List Piece) (sc x y : ℚ) :
    ∀ n i : ℕ, getPieceAtAux ps sc x y n = some i ↔
      (i < n ∧ (∃ p, ps[i]? = some p ∧ hitTest sc x y p) ∧
        ∀ j, i < j → j < n → ∀ q, ps[j]? = some q → ¬ hitTest sc x y q) := by
  intro n
  induction n with
  | zero => intro i; simp [getPieceAtAux]
  | succ n ih =>
    intro i
    unfold getPieceAtAux
    cases hq : ps[n]? with
    | some p =>
      by_cases hh : hitTest sc x y p
      · simp only [hh, if_pos, Option.some.injEq]
        constructor
        · intro hni
          subst hni
          refine ⟨Nat.lt_succ_self n, ⟨p, hq, hh⟩, ?_⟩
          intro j hj1 hj2 q hgq
          omega
        · rintro ⟨hi, ⟨p2, hp2, hh2⟩, hall⟩
          by_contra hne
          have hin : i < n := by omega
          exact hall n hin (Nat.lt_succ_self n) p hq hh
      · simp only [hh, if_neg, not_false_iff, ih i]
        constructor
        · rintro ⟨hi, hex, hall⟩
          refine ⟨Nat.lt_succ_of_lt hi, hex, ?_⟩
          intro j hj1 hj2 q hgq
          rcases Nat.lt_succ_iff_lt_or_eq.mp hj2 with hj3 | hj3
          · exact hall j hj1 hj3 q hgq
          · subst hj3
            rw [hq] at hgq
            cases hgq
            exact hh
        · rintro ⟨hi, hex, hall⟩
          have hin : i ≠ n := by
            intro hni
            subst hni
            rcases hex with ⟨p2, hp2, hh2⟩
            rw [hq] at hp2
            cases hp2
            exact hh hh2
          refine ⟨by omega, hex, ?_⟩
          intro j hj1 hj2 q hgq
          exact hall j hj1 (Nat.lt_succ_of_lt hj2) q hgq
    | none =>
      rw [ih i]
      constructor
      · rintro ⟨hi, hex, hall⟩
        refine ⟨Nat.lt_succ_of_lt hi, hex, ?_⟩
        intro j hj1 hj2 q hgq
        rcases Nat.lt_succ_iff_lt_or_eq.mp hj2 with hj3 | hj3
        · exact hall j hj1 hj3 q hgq
        · subst hj3
          rw [hq] at hgq
          cases hgq
      · rintro ⟨hi, hex, hall⟩
        have hin : i ≠ n := by
          intro hni
          subst hni
          rcases hex with ⟨p2, hp2, hh2⟩
          rw [hq] at hp2
          cases hp2
        refine ⟨by omega, hex, ?_⟩
        intro j hj1 hj2 q hgq
        exact hall j hj1 (Nat.lt_succ_of_lt hj2) q hgq

lemma get?_lt_length {α : Type} {l : List α} {n : ℕ} {a : α}
    (h : l[n]? = some a) : n < l.length := by
  rw [← List.get?_eq_getElem?] at h
  rcases List.get?_eq_some.mp h with ⟨h1, _⟩
  exact h1

lemma getPieceAt_none_iff (ps : List Piece) (sc x y : ℚ) :
    getPieceAt ps sc x y = none ↔
      ∀ (j : ℕ) (q : Piece), ps[j]? = some q → ¬ hitTest sc x y q := by
  unfold getPieceAt
  rw [getPieceAtAux_none_iff]
  constructor
  · intro hall j q hgq
    exact hall j (get?_lt_length hgq) q hgq
  · intro hall j _ q hgq
    exact hall j q hgq

lemma getPieceAt_some_iff (ps : List Piece) (sc x y : ℚ) (i : ℕ) :
    getPieceAt ps sc x y = some i ↔
      (∃ p, ps[i]? = some p ∧ hitTest sc x y p) ∧
        ∀ (j : ℕ) (q : Piece), i < j → ps[j]? = some q → ¬ hitTest sc x y q := by
  unfold getPieceAt
  rw [getPieceAtAux_some_iff]
  constructor
  · rintro ⟨_, hex, hall⟩
    refine ⟨hex, ?_⟩
    intro j q hj hgq
    exact hall j hj (get?_lt_length hgq) q hgq
  · rintro ⟨hex, hall⟩
    rcases hex with ⟨p, hp, hh⟩
    refine ⟨get?_lt_length hp, ⟨p, hp, hh⟩, ?_⟩
    intro j hj _ q hgq
    exact hall j q hj hgq

/-! ### The grid invariant -/

lemma get?_range_map_inv {α : Type} {g : ℕ → α} {i N : ℕ} {a : α}
    (h : ((List.range N).map g)[i]? = some a) : i < N ∧ a = g i := by
  have hlt : i < N := by
    have h1 := get?_lt_length h
    rwa [length_range_map] at h1
  rw [get?_range_map g hlt] at h
  cases h
  exact ⟨hlt, rfl⟩

/-- The invariant of claim C10: the tile list always has `ROWS * COLS`
entries and tile `i` keeps the source rectangle and dimensions assigned to
flat index `i` by the grid builder. -/
def goodPieces (img : ℚ × ℚ) (ps : List Piece) : Prop :=
  ps.length = ROWS * COLS ∧
  ∀ (i : ℕ) (p : Piece), ps[i]? = some p →
    p.width = img.1 / (COLS : ℚ) ∧ p.height = img.2 / (ROWS : ℚ) ∧
    p.sx = ((i % COLS : ℕ) : ℚ) * (img.1 / (COLS : ℚ)) ∧
    p.sy = ((i / COLS : ℕ) : ℚ) * (img.2 / (ROWS : ℚ))

lemma goodPieces_initializePieces (img : ℚ × ℚ) (rand : ℕ → ℕ → ℚ × ℚ) :
    goodPieces img (initializePieces img rand) := by
  constructor
  · exact initializePieces_length img rand
  · intro i p hp
    rw [initializePieces_eq] at hp
    rcases get?_range_map_inv hp with ⟨hlt, rfl⟩
    exact ⟨rfl, rfl, rfl, rfl⟩

lemma goodPieces_solved (img : ℚ × ℚ) :
    goodPieces img ((List.range (ROWS * COLS)).map (solvedPiece img)) := by
  constructor
  · exact length_range_map _ _
  · intro i p hp
    rcases get?_range_map_inv hp with ⟨hlt, rfl⟩
    exact ⟨rfl, rfl, rfl, rfl⟩

/-- Replacing tile `i` by a tile with the same immutable fields preserves
the invariant. -/
lemma goodPieces_set (img : ℚ × ℚ) {ps : List Piece} (hg : goodPieces img ps)
    {i : ℕ} {p p2 : Piece} (hp : ps[i]? = some p)
    (hw : p2.width = p.width) (hht : p2.height = p.height)
    (hsx : p2.sx = p.sx) (hsy : p2.sy = p.sy) :
    goodPieces img (ps.set i p2) := by
  constructor
  · rw [List.length_set]; exact hg.1
  · intro j q hq
    by_cases hij : i = j
    · subst hij
      rw [List.getElem?_set_eq (get?_lt_length hp)] at hq
      cases hq
      rcases hg.2 i p hp with ⟨h1, h2, h3, h4⟩
      exact ⟨hw.trans h1, hht.trans h2, hsx.trans h3, hsy.trans h4⟩
    · rw [List.getElem?_set_ne hij] at hq
      exact hg.2 j q hq

lemma handleMouseMove_pieces_cases (s : PState) (x y : ℚ) :
    (handleMouseMove s x y).pieces = s.pieces ∨
    ∃ i p, s.pieces[i]? = some p ∧
      (handleMouseMove s x y).pieces =
        s.pieces.set i
          { p with x := x / s.scale - s.offset.1, y := y / s.scale - s.offset.2 } := by
  cases hd : s.draggedIndex with
  | none => exact Or.inl (by simp [handleMouseMove, hd])
  | some i =>
    cases hp : s.pieces[i]? with
    | none => exact Or.inl (by simp [handleMouseMove, hd, hp])
    | some p => exact Or.inr ⟨i, p, hp, by simp [handleMouseMove, hd, hp]⟩

lemma handleMouseUp_pieces_cases (s : PState) :
    (handleMouseUp s).pieces = s.pieces ∨
    ∃ i p, s.pieces[i]? = some p ∧
      (handleMouseUp s).pieces =
        s.pieces.set i { p with x := p.sx / s.scale, y := p.sy / s.scale } := by
  cases hd : s.draggedIndex with
  | none => exact Or.inl (by simp [handleMouseUp, hd])
  | some i =>
    cases hp : s.pieces[i]? with
    | none => exact Or.inl (by simp [handleMouseUp, hd, hp])
    | some p =>
      by_cases hc : (p.x - p.sx / s.scale) ^ 2 + (p.y - p.sy / s.scale) ^ 2 <
          SNAP_THRESHOLD ^ 2
      · exact Or.inr ⟨i, p, hp, by simp [handleMouseUp, hd, hp, hc]⟩
      · exact Or.inl (by simp [handleMouseUp, hd, hp, hc])

lemma handleWheel_pieces (s : PState) (d : ℚ) : (handleWheel s d).pieces = s.pieces := by
  cases h : s.image <;> simp [handleWheel, h]

lemma handleMouseDown_pieces (s : PState) (x y : ℚ) :
    (handleMouseDown s x y).pieces = s.pieces := by
  cases h : getPieceAt s.pieces s.scale x y with
  | none => simp [handleMouseDown, h]
  | some i =>
    cases hp : s.pieces[i]? with
    | none => simp [handleMouseDown, h, hp]
    | some p => simp [handleMouseDown, h, hp]

lemma fixPuzzle_idem (s : PState) : fixPuzzle (fixPuzzle s) = fixPuzzle s := by
  cases h : s.image with
  | none =>
    have h1 : fixPuzzle s = s := by simp [fixPuzzle, h]
    rw [h1, h1]
  | some img =>
    have h3 : (fixPuzzle s).image = some img := by rw [fixPuzzle_image, h]
    rw [fixPuzzle_eq (fixPuzzle s) img h3, fixPuzzle_eq s img h]

lemma mem_of_getElem_some {α : Type} {l : List α} {n : ℕ} {a : α}
    (h : l[n]? = some a) : a ∈ l := by
  apply List.get?_mem
  rw [List.get?_eq_getElem?]
  exact h

lemma rowcol_flat {row col : ℕ} (hr : row < ROWS) (hc : col < COLS) :
    (row * COLS + col) / COLS = row ∧ (row * COLS + col) % COLS = col ∧
      row * COLS + col < ROWS * COLS := by
  simp only [ROWS, COLS] at *
  omega

/-! ### Claims -/

/-- Claim C2: for every loaded image the grid builder produces exactly
`ROWS * COLS = 1000` tiles in row-major order; every tile has
`width = imageWidth / COLS` and `height = imageHeight / ROWS`, and the tile
at grid coordinates `(row, col)` (flat index `row * COLS + col`) has source
rectangle origin `(col * width, row * height)`. -/
theorem initializePieces_grid (img : ℚ × ℚ) (rand : ℕ → ℕ → ℚ × ℚ) :
    ROWS * COLS = 1000 ∧
    (initializePieces img rand).length = ROWS * COLS ∧
    (∀ p ∈ initializePieces img rand,
      p.width = img.1 / (COLS : ℚ) ∧ p.height = img.2 / (ROWS : ℚ)) ∧
    ∀ (row col : ℕ), row < ROWS → col < COLS →
      ∃ p : Piece, (initializePieces img rand)[row * COLS + col]? = some p ∧
        p.width = img.1 / (COLS : ℚ) ∧ p.height = img.2 / (ROWS : ℚ) ∧
        p.sx = (col : ℚ) * (img.1 / (COLS : ℚ)) ∧
        p.sy = (row : ℚ) * (img.2 / (ROWS : ℚ)) := by
  refine ⟨rfl, initializePieces_length img rand, ?_, ?_⟩
  · intro p hp
    rw [initializePieces_eq] at hp
    rcases List.mem_map.mp hp with ⟨i, _, rfl⟩
    exact ⟨rfl, rfl⟩
  · intro row col hr hc
    obtain ⟨hdiv, hmod, hlt⟩ := rowcol_flat hr hc
    refine ⟨initPiece img rand (row * COLS + col), ?_, rfl, rfl, ?_, ?_⟩
    · rw [initializePieces_eq]
      exact get?_range_map _ hlt
    · simp only [initPiece, hmod]
    · simp only [initPiece, hdiv]

/-- Witness for C2 at a concrete image and random stream. -/
theorem initializePieces_grid_witness :
    (initializePieces (1000, 625) (fun _ _ => (0, 0))).length = ROWS * COLS :=
  (initializePieces_grid (1000, 625) (fun _ _ => (0, 0))).2.1

/-- Claim C3: after `fixPuzzle` (image loaded) every tile sits at
`(col * width, row * height)`; `fixPuzzle` is idempotent; and for a
1000×625 image the tiles are 25×25 with corner tiles at `(0,0)` and
`(975, 600)`. -/
theorem fixPuzzle_solves (s : PState) (img : ℚ × ℚ) (h : s.image = some img) :
    (∀ (row col : ℕ), row < ROWS → col < COLS →
      (fixPuzzle s).pieces[row * COLS + col]? = some
        { sx := (col : ℚ) * (img.1 / (COLS : ℚ))
          sy := (row : ℚ) * (img.2 / (ROWS : ℚ))
          x := (col : ℚ) * (img.1 / (COLS : ℚ))
          y := (row : ℚ) * (img.2 / (ROWS : ℚ))
          width := img.1 / (COLS : ℚ)
          height := img.2 / (ROWS : ℚ) }) ∧
    fixPuzzle (fixPuzzle s) = fixPuzzle s ∧
    (img = (1000, 625) →
      img.1 / (COLS : ℚ) = 25 ∧ img.2 / (ROWS : ℚ) = 25 ∧
      (fixPuzzle s).pieces[(0 : ℕ)]? = some ⟨0, 0, 0, 0, 25, 25⟩ ∧
      (fixPuzzle s).pieces[24 * COLS + 39]? = some ⟨975, 600, 975, 600, 25, 25⟩) := by
  have hmain : ∀ (row col : ℕ), row < ROWS → col < COLS →
      (fixPuzzle s).pieces[row * COLS + col]? = some
        { sx := (col : ℚ) * (img.1 / (COLS : ℚ))
          sy := (row : ℚ) * (img.2 / (ROWS : ℚ))
          x := (col : ℚ) * (img.1 / (COLS : ℚ))
          y := (row : ℚ) * (img.2 / (ROWS : ℚ))
          width := img.1 / (COLS : ℚ)
          height := img.2 / (ROWS : ℚ) } := by
    intro row col hr hc
    obtain ⟨hdiv, hmod, hlt⟩ := rowcol_flat hr hc
    rw [fixPuzzle_get? s img h hlt]
    simp only [solvedPiece, hdiv, hmod]
  refine ⟨hmain, fixPuzzle_idem s, ?_⟩
  rintro rfl
  have h00 := hmain 0 0 (by norm_num [ROWS]) (by norm_num [COLS])
  have h99 := hmain 24 39 (by norm_num [ROWS]) (by norm_num [COLS])
  refine ⟨by norm_num [COLS], by norm_num [ROWS], ?_, ?_⟩
  · rw [show 0 * COLS + 0 = 0 from by simp] at h00
    rw [h00]
    norm_num [COLS, ROWS]
  · rw [h99]
    norm_num [COLS, ROWS]

def stateC3 : PState :=
  { pieces := [], draggedIndex := none, offset := (0, 0), canvasSize := (0, 0)
    scale := 1, image := some (1000, 625) }

/-- Witness for C3 at a concrete state with a loaded 1000×625 image. -/
theorem fixPuzzle_solves_witness :
    fixPuzzle (fixPuzzle stateC3) = fixPuzzle stateC3 ∧
    (fixPuzzle stateC3).pieces[(0 : ℕ)]? = some ⟨0, 0, 0, 0, 25, 25⟩ :=
  ⟨(fixPuzzle_solves stateC3 (1000, 625) rfl).2.1,
    ((fixPuzzle_solves stateC3 (1000, 625) rfl).2.2 rfl).2.2.1⟩

/-- Claim C4: after `messUpPuzzle` (image loaded, positive dimensions,
random samples in `[0, 1)`), every tile's `x` lies in
`[0, imageWidth - width)` and every tile's `y` in
`[0, imageHeight - height)`.  Each tile consumes its own random samples,
so no cross-tile constraint (such as collision avoidance) exists. -/
theorem messUpPuzzle_bounds (s : PState) (img : ℚ × ℚ) (rand : ℕ → ℕ → ℚ × ℚ)
    (h : s.image = some img) (hw : 0 < img.1) (hh : 0 < img.2)
    (hr : ∀ r c : ℕ, 0 ≤ (rand r c).1 ∧ (rand r c).1 < 1 ∧
      0 ≤ (rand r c).2 ∧ (rand r c).2 < 1) :
    ∀ p ∈ (messUpPuzzle s rand).pieces,
      (0 ≤ p.x ∧ p.x < img.1 - p.width) ∧ (0 ≤ p.y ∧ p.y < img.2 - p.height) := by
  intro p hp
  have hmess : (messUpPuzzle s rand).pieces = initializePieces img rand := by
    simp [messUpPuzzle, h]
  rw [hmess, initializePieces_eq] at hp
  rcases List.mem_map.mp hp with ⟨i, _, rfl⟩
  obtain ⟨h1, h2, h3, h4⟩ := hr (i / COLS) (i % COLS)
  have hcolsq : ((COLS : ℕ) : ℚ) = 40 := by norm_num [COLS]
  have hrowsq : ((ROWS : ℕ) : ℚ) = 25 := by norm_num [ROWS]
  have hposx : 0 < img.1 - img.1 / (COLS : ℚ) := by rw [hcolsq]; linarith
  have hposy : 0 < img.2 - img.2 / (ROWS : ℚ) := by rw [hrowsq]; linarith
  simp only [initPiece]
  constructor
  · refine ⟨mul_nonneg h1 (le_of_lt hposx), ?_⟩
    have hxlt := mul_lt_mul_of_pos_right h2 hposx
    rwa [one_mul] at hxlt
  · refine ⟨mul_nonneg h3 (le_of_lt hposy), ?_⟩
    have hylt := mul_lt_mul_of_pos_right h4 hposy
    rwa [one_mul] at hylt

def stateC4 : PState :=
  { pieces := [], draggedIndex := none, offset := (0, 0), canvasSize := (0, 0)
    scale := 1, image := some (1000, 625) }

def randC4 : ℕ → ℕ → ℚ × ℚ := fun _ _ => (1 / 2, 1 / 3)

/-- Witness for C4 at a concrete state, image and random stream. -/
theorem messUpPuzzle_bounds_witness :
    (0 ≤ (initPiece (1000, 625) randC4 0).x ∧
      (initPiece (1000, 625) randC4 0).x < 1000 - (initPiece (1000, 625) randC4 0).width) ∧
    (0 ≤ (initPiece (1000, 625) randC4 0).y ∧
      (initPiece (1000, 625) randC4 0).y < 625 - (initPiece (1000, 625) randC4 0).height) := by
  have hmem : initPiece (1000, 625) randC4 0 ∈ (messUpPuzzle stateC4 randC4).pieces := by
    have hmess : (messUpPuzzle stateC4 randC4).pieces = initializePieces (1000, 625) randC4 := by
      simp [messUpPuzzle, stateC4]
    rw [hmess, initializePieces_eq]
    exact mem_of_getElem_some (get?_range_map _ (by norm_num [ROWS, COLS]))
  have happ := messUpPuzzle_bounds stateC4 (1000, 625) randC4 rfl (by norm_num)
    (by norm_num) (fun r c => by norm_num [randC4]) _ hmem
  exact happ

/-- Claim C5: the hit test returns the highest index whose tile's scaled
bounding box contains the point — `hitTest` is the inclusive-bounds box
condition of the source — and `none` when no tile's box contains the
point, in particular on the empty tile sequence. -/
theorem getPieceAt_topmost (ps : List Piece) (sc x y : ℚ) :
    getPieceAt [] sc x y = none ∧
    (getPieceAt ps sc x y = none ↔
      ∀ (j : ℕ) (q : Piece), ps[j]? = some q → ¬ hitTest sc x y q) ∧
    ∀ i : ℕ, getPieceAt ps sc x y = some i ↔
      ((∃ p, ps[i]? = some p ∧ hitTest sc x y p) ∧
        ∀ (j : ℕ) (q : Piece), i < j → ps[j]? = some q → ¬ hitTest sc x y q) :=
  ⟨rfl, getPieceAt_none_iff ps sc x y, fun i => getPieceAt_some_iff ps sc x y i⟩

/-- Witness for C5: the empty sequence yields no hit. -/
theorem getPieceAt_topmost_witness : getPieceAt [] 1 0 0 = none :=
  (getPieceAt_topmost [] 1 0 0).1

/-- The tile produced by a pointer-move while dragging: the dragged tile
with its position overwritten by `point/scale - offset` (source lines
129-131). -/
def movedPiece (s : PState) (x y : ℚ) (p : Piece) : Piece :=
  { p with x := x / s.scale - s.offset.1, y := y / s.scale - s.offset.2 }

/-- Claim C6: pointer-move in the idle state changes nothing; pointer-move
while dragging tile `i` sets exactly that tile's position to
`point/scale - offset` and nothing else (in particular the drag offset and
dragged index are held constant across moves); pointer-down that hits tile
`i` records `dragOffset = point/scale - tile.pos`. -/
theorem drag_move_spec (s : PState) (x y dx dy : ℚ) :
    (s.draggedIndex = none → handleMouseMove s x y = s) ∧
    (∀ (i : ℕ) (p : Piece), s.draggedIndex = some i → s.pieces[i]? = some p →
      handleMouseMove s x y = { s with pieces := s.pieces.set i (movedPiece s x y p) }) ∧
    ((handleMouseMove s x y).offset = s.offset ∧
      (handleMouseMove s x y).draggedIndex = s.draggedIndex) ∧
    ∀ (i : ℕ) (p : Piece), getPieceAt s.pieces s.scale dx dy = some i →
      s.pieces[i]? = some p →
      handleMouseDown s dx dy =
        { s with draggedIndex := some i
                 offset := (dx / s.scale - p.x, dy / s.scale - p.y) } := by
  refine ⟨?_, ?_, ?_, ?_⟩
  · intro h
    simp [handleMouseMove, h]
  · intro i p hd hp
    simp [handleMouseMove, movedPiece, hd, hp]
  · cases hd : s.draggedIndex with
    | none => simp [handleMouseMove, hd]
    | some i =>
      cases hp : s.pieces[i]? with
      | none => simp [handleMouseMove, hd, hp]
      | some p => simp [handleMouseMove, hd, hp]
  · intro i p h1 h2
    simp [handleMouseDown, h1, h2]

def pieceC6 : Piece := { sx := 0, sy := 0, x := 3, y := 4, width := 25, height := 25 }

def stateC6 : PState :=
  { pieces := [pieceC6], draggedIndex := some 0, offset := (1, 2)
    canvasSize := (0, 0), scale := 1, image := none }

/-- Witness for C6: a concrete move of a dragged tile. -/
theorem drag_move_spec_witness :
    handleMouseMove stateC6 10 20 =
      { stateC6 with pieces := [{ pieceC6 with x := 10 / 1 - 1, y := 20 / 1 - 2 }] } := by
  have h := (drag_move_spec stateC6 10 20 0 0).2.1 0 pieceC6 rfl rfl
  rw [h]
  simp [stateC6, pieceC6, movedPiece]

lemma handleWheel_scale (s : PState) (d : ℚ) :
    (handleWheel s d).scale =
      max (1 / 2) (min 2 (s.scale + (if d < 0 then 1 / 10 else -(1 / 10)))) := by
  cases h : s.image <;> simp [handleWheel, h]

lemma handleWheel_scale_mem (s : PState) (d : ℚ) :
    1 / 2 ≤ (handleWheel s d).scale ∧ (handleWheel s d).scale ≤ 2 := by
  rw [handleWheel_scale]
  refine ⟨le_max_left _ _, max_le (by norm_num) (min_le_left _ _)⟩

lemma foldl_wheel_mem : ∀ (ds : List ℚ) (t : PState), 1 / 2 ≤ t.scale → t.scale ≤ 2 →
    1 / 2 ≤ (ds.foldl handleWheel t).scale ∧ (ds.foldl handleWheel t).scale ≤ 2 := by
  intro ds
  induction ds with
  | nil => intro t h1 h2; exact ⟨h1, h2⟩
  | cons d ds ih =>
    intro t h1 h2
    exact ih (handleWheel t d) (handleWheel_scale_mem t d).1 (handleWheel_scale_mem t d).2

/-- Claim C7: a wheel event steps the scale by 0.1 (up adds, down
subtracts) clamped to `[0.5, 2]`; with a loaded image the canvas size
becomes `image dimensions * new scale`; and after any wheel event every
further sequence of wheel events keeps the scale within `[0.5, 2]`. -/
theorem handleWheel_spec (s : PState) (d : ℚ) :
    ((handleWheel s d).scale =
      max (1 / 2) (min 2 (s.scale + (if d < 0 then 1 / 10 else -(1 / 10))))) ∧
    (1 / 2 ≤ (handleWheel s d).scale ∧ (handleWheel s d).scale ≤ 2) ∧
    (∀ img : ℚ × ℚ, s.image = some img →
      (handleWheel s d).canvasSize =
        (img.1 * (handleWheel s d).scale, img.2 * (handleWheel s d).scale)) ∧
    ∀ ds : List ℚ, 1 / 2 ≤ (ds.foldl handleWheel (handleWheel s d)).scale ∧
      (ds.foldl handleWheel (handleWheel s d)).scale ≤ 2 := by
  refine ⟨handleWheel_scale s d, handleWheel_scale_mem s d, ?_, ?_⟩
  · intro img h
    simp [handleWheel, h]
  · intro ds
    exact foldl_wheel_mem ds (handleWheel s d)
      (handleWheel_scale_mem s d).1 (handleWheel_scale_mem s d).2

def stateC7 : PState :=
  { pieces := [], draggedIndex := none, offset := (0, 0), canvasSize := (0, 0)
    scale := 1, image := some (1000, 625) }

/-- Witness for C7: one wheel-up event from scale 1 with a loaded image. -/
theorem handleWheel_spec_witness :
    (handleWheel stateC7 (-1)).scale = 11 / 10 ∧
    (handleWheel stateC7 (-1)).canvasSize = (1000 * (11 / 10), 625 * (11 / 10)) := by
  have h := handleWheel_spec stateC7 (-1)
  have hs : (handleWheel stateC7 (-1)).scale = 11 / 10 := by
    rw [h.1]
    norm_num [stateC7]
  refine ⟨hs, ?_⟩
  have h2 := h.2.2.1 (1000, 625) rfl
  rw [h2, hs]

/-- Claim C8: a wheel event changes neither the tile list (hence no tile's
position, width or height) nor the drag state nor the image — only the
scale and canvas size — and a pointer-down never changes the tile list
either; combined with C6's idle clause, tile positions are mutated only by
drag moves, release snapping, solve and scramble. -/
theorem wheel_frame (s : PState) (d x y : ℚ) :
    (handleWheel s d).pieces = s.pieces ∧
    (handleWheel s d).draggedIndex = s.draggedIndex ∧
    (handleWheel s d).offset = s.offset ∧
    (handleWheel s d).image = s.image ∧
    (handleMouseDown s x y).pieces = s.pieces := by
  refine ⟨handleWheel_pieces s d, ?_, ?_, ?_, handleMouseDown_pieces s x y⟩ <;>
    cases h : s.image <;> simp [handleWheel, h]

/-- Witness for C8: a concrete wheel event leaves the tile list unchanged. -/
theorem wheel_frame_witness : (handleWheel stateC7 1).pieces = stateC7.pieces :=
  (wheel_frame stateC7 1 0 0).1

/-- Claim C10: from the first grid build onward, every operation preserves
the invariant that the tile list has `ROWS * COLS` entries whose source
rectangles and dimensions are the ones the grid builder assigned to their
indices (`goodPieces`), and every operation also leaves the loaded image
unchanged — only positions ever change. -/
theorem grid_invariant (s : PState) (img : ℚ × ℚ) (rand : ℕ → ℕ → ℚ × ℚ) (x y d : ℚ)
    (him : s.image = some img) (hg : goodPieces img s.pieces) :
    goodPieces img (initializePieces img rand) ∧
    goodPieces img (handleMouseMove s x y).pieces ∧
    goodPieces img (handleMouseUp s).pieces ∧
    goodPieces img (fixPuzzle s).pieces ∧
    goodPieces img (messUpPuzzle s rand).pieces ∧
    goodPieces img (handleWheel s d).pieces ∧
    goodPieces img (handleMouseDown s x y).pieces ∧
    (handleMouseMove s x y).image = s.image ∧
    (handleMouseUp s).image = s.image ∧
    (fixPuzzle s).image = s.image ∧
    (messUpPuzzle s rand).image = s.image ∧
    (handleWheel s d).image = s.image ∧
    (handleMouseDown s x y).image = s.image := by
  refine ⟨goodPieces_initializePieces img rand, ?_, ?_, ?_, ?_, ?_, ?_, ?_, ?_,
    fixPuzzle_image s, ?_, ?_, ?_⟩
  · rcases handleMouseMove_pieces_cases s x y with hcase | ⟨i, p, hp, hcase⟩
    · rw [hcase]; exact hg
    · rw [hcase]; exact goodPieces_set img hg hp rfl rfl rfl rfl
  · rcases handleMouseUp_pieces_cases s with hcase | ⟨i, p, hp, hcase⟩
    · rw [hcase]; exact hg
    · rw [hcase]; exact goodPieces_set img hg hp rfl rfl rfl rfl
  · rw [fixPuzzle_eq s img him]
    exact goodPieces_solved img
  · have hm : (messUpPuzzle s rand).pieces = initializePieces img rand := by
      simp [messUpPuzzle, him]
    rw [hm]
    exact goodPieces_initializePieces img rand
  · rw [handleWheel_pieces]; exact hg
  · rw [handleMouseDown_pieces]; exact hg
  · cases hd : s.draggedIndex with
    | none => simp [handleMouseMove, hd]
    | some i =>
      cases hp : s.pieces[i]? with
      | none => simp [handleMouseMove, hd, hp]
      | some p => simp [handleMouseMove, hd, hp]
  · cases hd : s.draggedIndex with
    | none => simp [handleMouseUp, hd]
    | some i =>
      cases hp : s.pieces[i]? with
      | none => simp [handleMouseUp, hd, hp]
      | some p =>
        by_cases hc : (p.x - p.sx / s.scale) ^ 2 + (p.y - p.sy / s.scale) ^ 2 <
            SNAP_THRESHOLD ^ 2
        · simp [handleMouseUp, hd, hp, hc]
        · simp [handleMouseUp, hd, hp, hc]
  · simp [messUpPuzzle, him]
  · simp [handleWheel, him]
  · cases hd : getPieceAt s.pieces s.scale x y with
    | none => simp [handleMouseDown, hd]
    | some i =>
      cases hp : s.pieces[i]? with
      | none => simp [handleMouseDown, hd, hp]
      | some p => simp [handleMouseDown, hd, hp]

def stateC10 : PState :=
  { pieces := initializePieces (1000, 625) randC4, draggedIndex := none
    offset := (0, 0), canvasSize := (0, 0), scale := 1, image := some (1000, 625) }

/-- Witness for C10 at a concrete freshly-built state. -/
theorem grid_invariant_witness :
    goodPieces (1000, 625) (handleMouseUp stateC10).pieces :=
  (grid_invariant stateC10 (1000, 625) randC4 0 0 0 rfl
    (goodPieces_initializePieces (1000, 625) randC4)).2.2.1

/-! ### The snap target of `handleMouseUp`

`fixPuzzle` places a solved tile at `(sx, sy)` in logical space, but
`handleMouseUp` measures the release distance from, and snaps to,
`(sx / scale, sy / scale)` (source lines 141-142).  At any `scale ≠ 1` the
two disagree; the concrete evaluations below exhibit this. -/

def pieceC1 : Piece := { sx := 100, sy := 0, x := 90, y := 0, width := 25, height := 25 }

def stateC1 : PState :=
  { pieces := [pieceC1], draggedIndex := some 0, offset := (0, 0)
    canvasSize := (2000, 1250), scale := 2, image := some (1000, 625) }

/-- Claim C1 (refuting evaluation): at `scale = 2`, the dragged tile with
source origin `(100, 0)` released at logical position `(90, 0)` is at
Euclidean logical distance `10 < SNAP_THRESHOLD` from its correct position
`(sx, sy)`, yet the release leaves it at `(90, 0) ≠ (100, 0)`: the code
measures the distance from `(sx/scale, sy/scale) = (50, 0)` — distance
`40` — and does not snap. -/
theorem mouseUp_snap_misses_solved_position :
    (pieceC1.x - pieceC1.sx) ^ 2 + (pieceC1.y - pieceC1.sy) ^ 2 < SNAP_THRESHOLD ^ 2 ∧
    (handleMouseUp stateC1).pieces = [pieceC1] ∧
    pieceC1.x ≠ pieceC1.sx := by
  have hd : stateC1.draggedIndex = some 0 := rfl
  have hp : stateC1.pieces[0]? = some pieceC1 := rfl
  refine ⟨by norm_num [pieceC1, SNAP_THRESHOLD], ?_, by norm_num [pieceC1]⟩
  simp only [handleMouseUp, hd, hp]
  norm_num [stateC1, pieceC1, SNAP_THRESHOLD]

def pieceC9 : Piece := { sx := 100, sy := 0, x := 55, y := 0, width := 25, height := 25 }

def stateC9 : PState :=
  { pieces := [pieceC9], draggedIndex := some 0, offset := (0, 0)
    canvasSize := (2000, 1250), scale := 2, image := some (1000, 625) }

/-- Claim C9 (refuting evaluation): at `scale = 2`, the dragged tile with
source origin `(100, 0)` released at `(55, 0)` is at logical distance
`45 ≥ SNAP_THRESHOLD` from its correct position `(sx, sy)`, yet the
release does NOT leave the positions unchanged: the code measures the
distance from `(sx/scale, sy/scale) = (50, 0)` — distance `5` — and snaps
the tile to `(50, 0)`.  The transition to the idle state
(`draggedIndex = none`) does hold. -/
theorem mouseUp_far_release_still_snaps :
    SNAP_THRESHOLD ^ 2 ≤ (pieceC9.x - pieceC9.sx) ^ 2 + (pieceC9.y - pieceC9.sy) ^ 2 ∧
    (handleMouseUp stateC9).pieces = [{ pieceC9 with x := 50, y := 0 }] ∧
    ({ pieceC9 with x := 50, y := 0 } : Piece).x ≠ pieceC9.x ∧
    (handleMouseUp stateC9).draggedIndex = none := by
  have hd : stateC9.draggedIndex = some 0 := rfl
  have hp : stateC9.pieces[0]? = some pieceC9 := rfl
  refine ⟨by norm_num [pieceC9, SNAP_THRESHOLD], ?_, by norm_num [pieceC9], ?_⟩
  · simp only [handleMouseUp, hd, hp]
    norm_num [stateC9, pieceC9, SNAP_THRESHOLD]
  · simp only [handleMouseUp, hd, hp]
    norm_num [stateC9, pieceC9, SNAP_THRESHOLD]

end Puzzle
